import Mathlib

/-!
Revvit: IA-32 ModRM / SIB / operand decoder (`parser.c`)

A shallow embedding of the decoder of `parser.c`.

Conventions of the embedding.

* A pointer `unsigned char * cb` is a function `Nat → Nat` giving the cell at each
  offset from the pointer; a load `*(cb + k)` is `peek cb k`, which truncates the
  cell to an `unsigned char` (`% 256`).  `cb + n` is `advance cb n`.
* `printf` is modelled by the text it writes: every printing function returns the
  string it prints (together with its C return value when it has one).
* `int` is `Int`; the conversions to `signed char` / `char` and the reading of an
  `int` by `%x` are explicit (`to_signed_char`, `fmt_x`).
* An array read outside the array (`names[3]`) is `none`.
-/

namespace Revvit

/-! ## Memory -/

/-- Cells reachable from a pointer, indexed by offset. -/
abbrev Mem := Nat → Nat

/-- The load `*(cb + k)` of an `unsigned char`. -/
def peek (cb : Mem) (k : Nat) : Nat := cb k % 256

/-- The pointer `cb + n`. -/
def advance (cb : Mem) (n : Nat) : Mem := fun k => cb (n + k)

/-- A buffer holding the bytes of `l`, zero afterwards (`main` clears its buffer
with `memset` before filling it). -/
def buf (l : List Nat) : Mem := fun k => l.getD k 0

/-! ## `printf` conversions -/

/-- Conversion of an `int` to `signed char`: reduction modulo 256 into `-128..127`. -/
def to_signed_char (i : Int) : Int := (i + 128) % 256 - 128

/-- Conversion of an `unsigned char` value to `char` (signed) when it is passed to a
`char` parameter. -/
def to_char (b : Nat) : Int := to_signed_char (b : Int)

/-- Text of `%x` for an `int` argument: the 32-bit pattern read as unsigned, in
lowercase hexadecimal, no padding. -/
def fmt_x (i : Int) : String := String.mk (Nat.toDigits 16 (i % 4294967296).toNat)

/-- Text of `%0wx` (`%04x`, `%01x`): as `%x`, padded on the left with `0` up to
width `w`. -/
def fmt_0x (w : Nat) (i : Int) : String :=
  let d := Nat.toDigits 16 (i % 4294967296).toNat
  String.mk (List.replicate (w - d.length) '0' ++ d)

/-- Text of `%d` for an `int` argument. -/
def fmt_d (i : Int) : String :=
  if i < 0 then String.mk ('-' :: Nat.toDigits 10 (-i).toNat)
  else String.mk (Nat.toDigits 10 i.toNat)

/-! ## Register table (parser.c 48-69) -/

/-- The struct `reg`: `val` and the union's array view `names[3]`
(`name8`, `name16`, `name32`). -/
structure reg where
  val : Nat
  names : List String
  deriving DecidableEq, Repr

/-- The table `registers[8]`. -/
def registers : List reg := [
  ⟨0x00, ["al", "ax", "eax"]⟩,
  ⟨0x01, ["cl", "cx", "ecx"]⟩,
  ⟨0x02, ["dl", "dx", "edx"]⟩,
  ⟨0x03, ["bl", "bx", "ebx"]⟩,
  ⟨0x04, ["ah", "sp", "esp"]⟩,
  ⟨0x05, ["ch", "bp", "ebp"]⟩,
  ⟨0x06, ["sh", "si", "esi"]⟩,
  ⟨0x07, ["bh", "di", "edi"]⟩ ]

/-- The read `registers[r].names[i]`; `none` when `r` or `i` is outside its array. -/
def reg_name (r : Nat) (i : Int) : Option String :=
  if i < 0 then none
  else (registers.get? r).bind (fun e => e.names.get? i.toNat)

/-! ## Segment registers and prefix predicates (parser.c 104-150) -/

/-- `enum segment_regs`: the enumerators in order, from 0. -/
def CS : Int := 0
def SS : Int := 1
def DS : Int := 2
def ES : Int := 3
def FS : Int := 4
def GS : Int := 5

/-- `is_prefix`: the three comparisons have empty bodies; the result is 0. -/
def is_prefix (b : Int) : Int :=
  if b = 0xF0 then 0 else if b = 0xF2 then 0 else if b = 0xF3 then 0 else 0

/-- `is_address_size`: returns 0. -/
def is_address_size (_b : Int) : Int := 0

/-- `is_operand_size`: returns 0. -/
def is_operand_size (_b : Int) : Int := 0

/-- `is_seg_override`: the enumerator of the segment for the six override bytes,
0 otherwise. -/
def is_seg_override (b : Int) : Int :=
  if b = 0x2E then CS
  else if b = 0x36 then SS
  else if b = 0x3E then DS
  else if b = 0x26 then ES
  else if b = 0x64 then FS
  else if b = 0x65 then GS
  else 0

/-- `is_extended_opcode`: returns 0. -/
def is_extended_opcode (_b : Int) : Int := 0

/-! ## Bit-field macros (parser.c 153-170) -/

def BITS_01 (b : Nat) : Nat := (b &&& 0xC0) >>> 6
def BITS_234 (b : Nat) : Nat := (b &&& 0x38) >>> 3
def BITS_567 (b : Nat) : Nat := b &&& 0x7

def MASK_SIB_SCALE (b : Nat) : Nat := BITS_01 b
def MASK_SIB_INDEX (b : Nat) : Nat := BITS_234 b
def MASK_SIB_BASE (b : Nat) : Nat := BITS_567 b

def MASK_MODRM_MOD (b : Nat) : Nat := BITS_01 b
def MASK_MODRM_REG (b : Nat) : Nat := BITS_234 b
def MASK_MODRM_RM (b : Nat) : Nat := BITS_567 b

def RM_SIB : Nat := 0x4
def DISP_ONLY : Nat := 0x5
def MOD_INDIRECT_ADDRESS : Nat := 0x0
def MOD_ONE_BYTE_DISPLACEMENT : Nat := 0x1
def MOD_FOUR_BYTE_DISPLACEMENT : Nat := 0x2
def MOD_REG_ADDRESS : Nat := 0x3

/-! ## `decode_sib` and `print_hex` (parser.c 212-243) -/

/-- The three out-parameters of `decode_sib`. -/
structure sib_fields where
  index : Nat
  base : Nat
  scale : Int
  deriving DecidableEq, Repr

/-- `decode_sib`: scale from the switch on bits 7-6, index bits 5-3, base bits 2-0. -/
def decode_sib (b : Nat) : sib_fields :=
  let s := MASK_SIB_SCALE b
  let scale : Int :=
    if s = 0 then 1
    else if s = 1 then 2
    else if s = 2 then 4
    else if s = 3 then 8
    else 1
  { index := MASK_SIB_INDEX b, base := MASK_SIB_BASE b, scale := scale }

/-- `print_hex`: `p = !(v & 0x40)`, `vn = (signed char)(!p ? 256 - v : v)`, then
`+0x%x` when `p`, `-0x%x` otherwise. -/
def print_hex (v : Nat) : String :=
  let p : Bool := (v &&& 0x40) = 0
  let vn : Int := to_signed_char (if !p then 256 - (v : Int) else (v : Int))
  if p then "+0x" ++ fmt_x vn else "-0x" ++ fmt_x vn

/-! ## `decode_rm` (parser.c 245-297) -/

/-- `decode_rm`: the text printed and the value returned (`offset + 1`). -/
def decode_rm (cb : Mem) (size : Int) : Option (String × Nat) :=
  let mod := MASK_MODRM_MOD (peek cb 0)
  let rm := MASK_MODRM_RM (peek cb 0)
  let sib : Bool := rm = RM_SIB
  let offset : Nat := if sib && (mod != MOD_REG_ADDRESS) then 1 else 0
  let s := decode_sib (peek cb 1)
  if mod = MOD_INDIRECT_ADDRESS then
    if sib then
      if s.base = DISP_ONLY then do
        let ni ← reg_name s.index (1 + size)
        some ("[" ++ fmt_0x 4 (peek cb (offset + 1)) ++ "+" ++ ni ++ "*" ++ fmt_d s.scale ++ "]",
              offset + 1)
      else do
        let nb ← reg_name s.base (1 + size)
        let ni ← reg_name s.index (1 + size)
        some ("[" ++ nb ++ "+" ++ ni ++ "*" ++ fmt_d s.scale ++ "]", offset + 1)
    else
      if rm = DISP_ONLY then
        some (fmt_0x 4 (peek cb (offset + 1)), offset + 1)
      else do
        let nr ← reg_name rm (1 + size)
        some ("[" ++ nr ++ "]", offset + 1)
  else if mod = MOD_ONE_BYTE_DISPLACEMENT then
    if sib then do
      let nb ← reg_name s.base 0
      let ni ← reg_name s.index (1 + size)
      some ("[" ++ fmt_0x 1 (peek cb (offset + 1)) ++ "+" ++ nb ++ "+" ++ ni ++ "*"
              ++ fmt_d s.scale ++ "]", offset + 1 + 1)
    else do
      let nr ← reg_name rm (1 + size)
      some ("dword [" ++ nr ++ print_hex (peek cb (offset + 1)) ++ "]", offset + 1 + 1)
  else if mod = MOD_FOUR_BYTE_DISPLACEMENT then
    if sib then do
      let nb ← reg_name s.base (1 + size)
      let ni ← reg_name s.index (1 + size)
      some ("[disp+" ++ nb ++ "+" ++ ni ++ "*d]", offset + 4 + 1)
    else do
      let nr ← reg_name rm (1 + size)
      some ("dword [" ++ nr ++ "+disp32]", offset + 4 + 1)
  else if mod = MOD_REG_ADDRESS then do
    let nr ← reg_name rm (1 + size)
    some (nr, offset + 1)
  else
    some ("", offset + 1)

/-! ## `decode_operands` (parser.c 299-323) -/

/-- `decode_operands`: the text printed. -/
def decode_operands (cb : Mem) (dir size immediate : Int) : Option String :=
  let r := MASK_MODRM_REG (peek cb 0)
  if immediate ≠ 0 then
    if dir ≠ 0 then do
      let (t, o) ← decode_rm cb size
      some (t ++ ", " ++ print_hex (peek cb o) ++ "\n")
    else do
      let nr ← reg_name r (1 + size)
      some (nr ++ ", " ++ print_hex (peek cb 1) ++ "\n")
  else
    if dir ≠ 0 then do
      let nr ← reg_name r (1 + size)
      let (t, _) ← decode_rm cb size
      some (nr ++ ", " ++ t ++ "\n")
    else do
      let (t, _) ← decode_rm cb size
      let nr ← reg_name r (1 + size)
      some (t ++ ", " ++ nr ++ "\n")

/-! ## `find_opcode` and `decode_instruction` (parser.c 325-364) -/

/-- Modelled from the spec: the struct `opcode` is declared in `opcodes.c`, which is
not among the sources.  `parser.c` reads its members `v` and `name` and initialises
seven members in the order `0xFF, 0, 0, NON, NON, NON, "non"`; the specification
describes the descriptor as an opcode byte value, flags, and a mnemonic. -/
structure opcode where
  v : Nat
  flag1 : Int
  flag2 : Int
  arg1 : Nat
  arg2 : Nat
  arg3 : Nat
  name : String
  deriving DecidableEq, Repr

/-- The `for` loop of `find_opcode`: the first entry with `!(opcodes[i].v ^ v)`. -/
def find_opcode_loop : List opcode → Nat → Option opcode
  | [], _ => none
  | o :: rest, v => if (o.v ^^^ v) = 0 then some o else find_opcode_loop rest v

/-- `find_opcode`.  The table `opcodes` and the constant `NON`, both of `opcodes.c`,
are parameters. -/
def find_opcode (opcodes : List opcode) (NON : Nat) (v : Nat) : opcode :=
  match find_opcode_loop opcodes v with
  | some o => o
  | none => ⟨0xFF, 0, 0, NON, NON, NON, "non"⟩

/-- The locals `idx`, `f32` and `seg` of `decode_instruction` after its four prefix
tests (parser.c 337-350). -/
structure scan_result where
  idx : Nat
  f32 : Int
  seg : Int
  deriving DecidableEq, Repr

/-- The four prefix tests at the head of `decode_instruction` (parser.c 337-350); the
byte is converted to `char` at each call. -/
def decode_instruction_scan (cb : Mem) : scan_result :=
  let idx : Nat := 0
  let idx := if is_prefix (to_char (peek cb idx)) ≠ 0 then idx + 1 else idx
  let idx := if is_address_size (to_char (peek cb idx)) ≠ 0 then idx + 1 else idx
  let f32 := is_operand_size (to_char (peek cb idx))
  let idx := if f32 ≠ 0 then idx + 1 else idx
  let seg := is_seg_override (to_char (peek cb idx))
  let idx := if seg ≠ 0 then idx + 1 else idx
  { idx := idx, f32 := f32, seg := seg }

/-- The locals of `decode_instruction` at its call of `decode_operands`
(parser.c 351-361): `idx`, `cmd`, `dir`, `size`, `imm`. -/
structure instruction_locals where
  idx : Nat
  cmd : Nat
  dir : Int
  size : Int
  imm : Int
  deriving DecidableEq, Repr

/-- Lines 351-360 of `decode_instruction`: the opcode byte, the `0x0f` escape, and the
three flags (`dir` and `size` from `cb[idx]`, `imm` from `*cb`). -/
def decode_instruction_locals (cb : Mem) : instruction_locals :=
  let idx := (decode_instruction_scan cb).idx
  let cmd := peek cb idx
  let esc : Bool := cmd = 0x0f
  let idx := if esc then idx + 1 else idx
  let cmd := if esc then peek cb idx else cmd
  let idx := idx + 1
  { idx := idx, cmd := cmd,
    dir := ((peek cb idx &&& 0x02 : Nat) : Int),
    size := ((peek cb idx &&& 0x1 : Nat) : Int),
    imm := ((peek cb 0 &&& 0x80 : Nat) : Int) }

/-- `decode_instruction`: the text printed, `op.name`, a blank, then what
`decode_operands(cb+idx, 0, 1, 0)` prints.  `maxsize` is not used. -/
def decode_instruction (opcodes : List opcode) (NON : Nat) (cb : Mem) (_maxsize : Int) :
    Option String :=
  let l := decode_instruction_locals cb
  let op := find_opcode opcodes NON l.cmd
  (decode_operands (advance cb l.idx) 0 1 0).map (fun t => op.name ++ " " ++ t)

/-- Length of the ModRM byte together with its SIB byte and its displacement bytes as
section 4.3 of the specification sizes them (written from the specification, to be
compared with the value `decode_rm` returns): 1, plus 1 when `rm == 4` and
`mod != 3`, plus the displacement: 4 for `mod == 0` with `rm == 5` or with a SIB
base field of 5, 0 for the rest of `mod == 0`, 1 for `mod == 1`, 4 for `mod == 2`,
0 for `mod == 3`. -/
def modrm_length_spec (cb : Mem) : Nat :=
  let md := MASK_MODRM_MOD (peek cb 0)
  let rm := MASK_MODRM_RM (peek cb 0)
  let base := MASK_SIB_BASE (peek cb 1)
  let sib : Nat := if rm = 4 ∧ md ≠ 3 then 1 else 0
  let disp : Nat :=
    if md = 0 then (if rm = 5 ∨ (rm = 4 ∧ base = 5) then 4 else 0)
    else if md = 1 then 1
    else if md = 2 then 4
    else 0
  1 + sib + disp

/-! ## Offsets read by the decoder -/

/-- Offsets from `cb` of the loads `decode_rm` makes, in source order: `*cb` twice
(lines 249-250), `*(cb+1)` for `decode_sib` (line 256, made whatever `mod` and `rm`
are), then `*(cb+offset+1)` on the paths that print a displacement byte. -/
def decode_rm_reads (cb : Mem) : List Nat :=
  let mod := MASK_MODRM_MOD (peek cb 0)
  let rm := MASK_MODRM_RM (peek cb 0)
  let sib : Bool := rm = RM_SIB
  let offset : Nat := if sib && (mod != MOD_REG_ADDRESS) then 1 else 0
  let s := decode_sib (peek cb 1)
  [0, 0, 1] ++
    (if mod = MOD_INDIRECT_ADDRESS then
      if sib then (if s.base = DISP_ONLY then [offset + 1] else [])
      else (if rm = DISP_ONLY then [offset + 1] else [])
    else if mod = MOD_ONE_BYTE_DISPLACEMENT then [offset + 1]
    else [])

/-- Offsets from `cb` of the loads `decode_operands` makes: `*cb` (line 301), those of
`decode_rm` when it is called, and `*(cb+o)` for the immediate. -/
def decode_operands_reads (cb : Mem) (dir size immediate : Int) : List Nat :=
  [0] ++
    (if immediate ≠ 0 then
      if dir ≠ 0 then
        decode_rm_reads cb ++
          (match decode_rm cb size with
           | some (_, o) => [o]
           | none => [])
      else [1]
    else decode_rm_reads cb)

/-- Indices of the buffer that `decode_instruction` loads, in source order: `cb[idx]`
at each of the four prefix tests, `cmd = cb[idx]`, `cb[idx]` again after the `0x0f`
escape, `cb[idx]` twice for `dir` and `size`, `*cb` for `imm`, then the loads of
`decode_operands(cb+idx, 0, 1, 0)`. -/
def decode_instruction_reads (cb : Mem) : List Nat :=
  let i0 : Nat := 0
  let i1 := if is_prefix (to_char (peek cb i0)) ≠ 0 then i0 + 1 else i0
  let i2 := if is_address_size (to_char (peek cb i1)) ≠ 0 then i1 + 1 else i1
  let f32 := is_operand_size (to_char (peek cb i2))
  let i3 := if f32 ≠ 0 then i2 + 1 else i2
  let seg := is_seg_override (to_char (peek cb i3))
  let i4 := if seg ≠ 0 then i3 + 1 else i3
  let esc : Bool := peek cb i4 = 0x0f
  let i5 := if esc then i4 + 1 else i4
  let i6 := i5 + 1
  [i0, i1, i2, i3, i4] ++ (if esc then [i5] else []) ++ [i6, i6, 0]
    ++ (decode_operands_reads (advance cb i6) 0 1 0).map (fun k => i6 + k)

/-! ## `parse_bin` (parser.c 172-210) -/

/-- The locals of `parse_bin` that live across iterations. -/
structure parse_state where
  idx : Nat
  current_seg : Int
  deriving DecidableEq, Repr

/-- One pass through the body of the `while` of `parse_bin`: `cb = buffer[0]` is
`bin[idx]` (the first character `strncpy` copies), `is` starts at 1 and grows by one
for each test that holds, and `idx += is`. -/
def parse_bin_body (bin : Mem) (st : parse_state) : parse_state :=
  let current_seg := DS
  let cb := to_char (peek bin st.idx)
  let is : Nat := 1
  let is := if is_prefix cb ≠ 0 then is + 1 else is
  let is := if is_address_size cb ≠ 0 then is + 1 else is
  let is := if is_operand_size cb ≠ 0 then is + 1 else is
  let seg := is_seg_override cb
  let current_seg := if seg ≠ 0 then seg else current_seg
  let is := if seg ≠ 0 then is + 1 else is
  let is := if is_extended_opcode cb ≠ 0 then is + 1 else is
  { idx := st.idx + is, current_seg := current_seg }

/-- A C `while (cond) body` run for at most `fuel` tests of the condition: `some s`
with the state at which the condition fails, `none` when the fuel runs out first. -/
def while_loop {σ : Type} (cond : σ → Bool) (body : σ → σ) : Nat → σ → Option σ
  | 0, _ => none
  | fuel + 1, s => if cond s then while_loop cond body fuel (body s) else some s

/-- `parse_bin`: `idx = 0`, `current_seg = DS`, then `while(1)` over the body; the body
has no `break` and no `return`. -/
def parse_bin (bin : Mem) (fuel : Nat) : Option parse_state :=
  while_loop (fun _ => true) (parse_bin_body bin) fuel { idx := 0, current_seg := DS }

/-- State of `parse_bin` after `n` passes through the body. -/
def parse_bin_after (bin : Mem) : Nat → parse_state
  | 0 => { idx := 0, current_seg := DS }
  | n + 1 => parse_bin_body bin (parse_bin_after bin n)

/-! ## `string_to_hex` (parser.c 365-380) -/

/-- Conversion of an `int` to `unsigned int`. -/
def to_unsigned_int (i : Int) : Nat := (i % 4294967296).toNat

/-- The digit expression `c > '9' ? c - 'A' + 10 : c - '0'` on a `char`, stored in an
`unsigned int`. -/
def hex_digit (c : Int) : Nat :=
  to_unsigned_int (if c > 57 then c - 65 + 10 else c - 48)

/-- The `for` loop of `string_to_hex` on a string of even length: two characters per
pass, `out[c] = (h << 4) | l` stored in an `unsigned char`.  The result lists the
bytes written to `out[0]`, `out[1]`, ... -/
def string_to_hex_loop : List Nat → List Nat
  | a :: b :: rest =>
      ((((hex_digit (to_char a)) <<< 4) % 4294967296 ||| hex_digit (to_char b)) % 256)
        :: string_to_hex_loop rest
  | _ => []

/-- `string_to_hex` on the characters of `str` (those before the terminating NUL):
the bytes written to `out` when `strlen(str)` is even, otherwise the message printed
before `exit(1)`. -/
def string_to_hex (str : List Nat) : Except String (List Nat) :=
  if str.length % 2 = 0 then Except.ok (string_to_hex_loop str)
  else Except.error "ERROR INVALID STRING\n"

/-- Value of a hexadecimal digit as the specification of `string_to_hex` words it
(written from the specification): `'0'..'9'` give 0..9, `'A'..'F'` give 10..15. -/
def hexval (c : Nat) : Nat :=
  if 48 ≤ c ∧ c ≤ 57 then c - 48
  else if 65 ≤ c ∧ c ≤ 70 then c - 65 + 10
  else 0

/-! ## Canonical register names -/

/-- The canonical IA-32 8-bit register names in ordinal order (written from the
specification). -/
def canonical_names8 : List String := ["al", "cl", "dl", "bl", "ah", "ch", "dh", "bh"]

/-- The canonical IA-32 16-bit register names in ordinal order (written from the
specification). -/
def canonical_names16 : List String := ["ax", "cx", "dx", "bx", "sp", "bp", "si", "di"]

/-- The canonical IA-32 32-bit register names in ordinal order (written from the
specification). -/
def canonical_names32 : List String :=
  ["eax", "ecx", "edx", "ebx", "esp", "ebp", "esi", "edi"]

/-! ## Basic facts about the bit fields and the register table -/

theorem BITS_01_lt (b : Nat) : BITS_01 b < 4 := by
  unfold BITS_01
  have h : b &&& 0xC0 ≤ 0xC0 := Nat.and_le_right
  rw [Nat.shiftRight_eq_div_pow]
  omega

theorem BITS_234_lt (b : Nat) : BITS_234 b < 8 := by
  unfold BITS_234
  have h : b &&& 0x38 ≤ 0x38 := Nat.and_le_right
  rw [Nat.shiftRight_eq_div_pow]
  omega

theorem BITS_567_lt (b : Nat) : BITS_567 b < 8 := by
  unfold BITS_567
  have h : b &&& 0x7 ≤ 0x7 := Nat.and_le_right
  omega

theorem reg_name_some (r : Nat) (hr : r < 8) (i : Int) (hi : i = 0 ∨ i = 1 ∨ i = 2) :
    ∃ n, reg_name r i = some n := by
  rcases hi with rfl | rfl | rfl <;> interval_cases r <;> exact ⟨_, rfl⟩

theorem MASK_MODRM_RM_lt (b : Nat) : MASK_MODRM_RM b < 8 := BITS_567_lt b

theorem MASK_MODRM_REG_lt (b : Nat) : MASK_MODRM_REG b < 8 := BITS_234_lt b

theorem MASK_MODRM_MOD_lt (b : Nat) : MASK_MODRM_MOD b < 4 := BITS_01_lt b

theorem decode_sib_index_lt (b : Nat) : (decode_sib b).index < 8 := BITS_234_lt b

theorem decode_sib_base_lt (b : Nat) : (decode_sib b).base < 8 := BITS_567_lt b

/-- A register name read with a valid name index has no bracket in it. -/
theorem reg_name_no_bracket (r : Nat) (hr : r < 8) (i : Int) (hi : i = 0 ∨ i = 1 ∨ i = 2)
    (n : String) (h : reg_name r i = some n) : '[' ∉ n.toList ∧ ']' ∉ n.toList := by
  rcases hi with rfl | rfl | rfl <;> interval_cases r <;>
    (simp only [reg_name, registers] at h
     simp at h
     subst h
     decide)

/-! ## `decode_rm`, one lemma per path of the switch -/

theorem decode_rm_mod0_sib_disp (cb : Mem) (size : Int) (ni : String)
    (hmd : MASK_MODRM_MOD (peek cb 0) = 0) (hrm : MASK_MODRM_RM (peek cb 0) = 4)
    (hb : (decode_sib (peek cb 1)).base = 5)
    (hni : reg_name (decode_sib (peek cb 1)).index (1 + size) = some ni) :
    decode_rm cb size =
      some ("[" ++ fmt_0x 4 (peek cb 2) ++ "+" ++ ni ++ "*"
              ++ fmt_d (decode_sib (peek cb 1)).scale ++ "]", 2) := by
  simp [decode_rm, hmd, hrm, hb, hni, MOD_INDIRECT_ADDRESS, MOD_REG_ADDRESS, RM_SIB, DISP_ONLY]

theorem decode_rm_mod0_sib_base (cb : Mem) (size : Int) (nb ni : String)
    (hmd : MASK_MODRM_MOD (peek cb 0) = 0) (hrm : MASK_MODRM_RM (peek cb 0) = 4)
    (hb : (decode_sib (peek cb 1)).base ≠ 5)
    (hnb : reg_name (decode_sib (peek cb 1)).base (1 + size) = some nb)
    (hni : reg_name (decode_sib (peek cb 1)).index (1 + size) = some ni) :
    decode_rm cb size =
      some ("[" ++ nb ++ "+" ++ ni ++ "*" ++ fmt_d (decode_sib (peek cb 1)).scale ++ "]", 2) := by
  simp [decode_rm, hmd, hrm, hb, hnb, hni, MOD_INDIRECT_ADDRESS, MOD_REG_ADDRESS, RM_SIB,
    DISP_ONLY]

theorem decode_rm_mod0_disp (cb : Mem) (size : Int)
    (hmd : MASK_MODRM_MOD (peek cb 0) = 0) (hrm : MASK_MODRM_RM (peek cb 0) = 5) :
    decode_rm cb size = some (fmt_0x 4 (peek cb 1), 1) := by
  simp [decode_rm, hmd, hrm, MOD_INDIRECT_ADDRESS, MOD_REG_ADDRESS, RM_SIB, DISP_ONLY]

theorem decode_rm_mod0_reg (cb : Mem) (size : Int) (nr : String)
    (hmd : MASK_MODRM_MOD (peek cb 0) = 0) (hrm4 : MASK_MODRM_RM (peek cb 0) ≠ 4)
    (hrm5 : MASK_MODRM_RM (peek cb 0) ≠ 5)
    (hnr : reg_name (MASK_MODRM_RM (peek cb 0)) (1 + size) = some nr) :
    decode_rm cb size = some ("[" ++ nr ++ "]", 1) := by
  simp [decode_rm, hmd, hrm4, hrm5, hnr, MOD_INDIRECT_ADDRESS, MOD_REG_ADDRESS, RM_SIB,
    DISP_ONLY]

theorem decode_rm_mod1_sib (cb : Mem) (size : Int) (nb8 ni : String)
    (hmd : MASK_MODRM_MOD (peek cb 0) = 1) (hrm : MASK_MODRM_RM (peek cb 0) = 4)
    (hnb : reg_name (decode_sib (peek cb 1)).base 0 = some nb8)
    (hni : reg_name (decode_sib (peek cb 1)).index (1 + size) = some ni) :
    decode_rm cb size =
      some ("[" ++ fmt_0x 1 (peek cb 2) ++ "+" ++ nb8 ++ "+" ++ ni ++ "*"
              ++ fmt_d (decode_sib (peek cb 1)).scale ++ "]", 3) := by
  simp [decode_rm, hmd, hrm, hnb, hni, MOD_INDIRECT_ADDRESS, MOD_ONE_BYTE_DISPLACEMENT,
    MOD_REG_ADDRESS, RM_SIB]

theorem decode_rm_mod1_reg (cb : Mem) (size : Int) (nr : String)
    (hmd : MASK_MODRM_MOD (peek cb 0) = 1) (hrm4 : MASK_MODRM_RM (peek cb 0) ≠ 4)
    (hnr : reg_name (MASK_MODRM_RM (peek cb 0)) (1 + size) = some nr) :
    decode_rm cb size = some ("dword [" ++ nr ++ print_hex (peek cb 1) ++ "]", 2) := by
  simp [decode_rm, hmd, hrm4, hnr, MOD_INDIRECT_ADDRESS, MOD_ONE_BYTE_DISPLACEMENT,
    MOD_REG_ADDRESS, RM_SIB]

theorem decode_rm_mod2_sib (cb : Mem) (size : Int) (nb ni : String)
    (hmd : MASK_MODRM_MOD (peek cb 0) = 2) (hrm : MASK_MODRM_RM (peek cb 0) = 4)
    (hnb : reg_name (decode_sib (peek cb 1)).base (1 + size) = some nb)
    (hni : reg_name (decode_sib (peek cb 1)).index (1 + size) = some ni) :
    decode_rm cb size = some ("[disp+" ++ nb ++ "+" ++ ni ++ "*d]", 6) := by
  simp [decode_rm, hmd, hrm, hnb, hni, MOD_INDIRECT_ADDRESS, MOD_ONE_BYTE_DISPLACEMENT,
    MOD_FOUR_BYTE_DISPLACEMENT, MOD_REG_ADDRESS, RM_SIB]

theorem decode_rm_mod2_reg (cb : Mem) (size : Int) (nr : String)
    (hmd : MASK_MODRM_MOD (peek cb 0) = 2) (hrm4 : MASK_MODRM_RM (peek cb 0) ≠ 4)
    (hnr : reg_name (MASK_MODRM_RM (peek cb 0)) (1 + size) = some nr) :
    decode_rm cb size = some ("dword [" ++ nr ++ "+disp32]", 5) := by
  simp [decode_rm, hmd, hrm4, hnr, MOD_INDIRECT_ADDRESS, MOD_ONE_BYTE_DISPLACEMENT,
    MOD_FOUR_BYTE_DISPLACEMENT, MOD_REG_ADDRESS, RM_SIB]

theorem decode_rm_mod3 (cb : Mem) (size : Int) (nr : String)
    (hmd : MASK_MODRM_MOD (peek cb 0) = 3)
    (hnr : reg_name (MASK_MODRM_RM (peek cb 0)) (1 + size) = some nr) :
    decode_rm cb size = some (nr, 1) := by
  simp [decode_rm, hmd, hnr, MOD_INDIRECT_ADDRESS, MOD_ONE_BYTE_DISPLACEMENT,
    MOD_FOUR_BYTE_DISPLACEMENT, MOD_REG_ADDRESS]

/-- With `size` 0 or 1 every name read by `decode_rm` is inside the table: the
function prints a text and returns a count. -/
theorem decode_rm_some (cb : Mem) (size : Int) (hsz : size = 0 ∨ size = 1) :
    ∃ out ret, decode_rm cb size = some (out, ret) := by
  have hmdlt := MASK_MODRM_MOD_lt (peek cb 0)
  have hrmlt := MASK_MODRM_RM_lt (peek cb 0)
  have hi : 1 + size = 0 ∨ 1 + size = 1 ∨ 1 + size = 2 := by omega
  obtain ⟨nb8, hnb8⟩ := reg_name_some _ (decode_sib_base_lt (peek cb 1)) 0 (Or.inl rfl)
  obtain ⟨nb, hnb⟩ := reg_name_some _ (decode_sib_base_lt (peek cb 1)) _ hi
  obtain ⟨ni, hni⟩ := reg_name_some _ (decode_sib_index_lt (peek cb 1)) _ hi
  obtain ⟨nr, hnr⟩ := reg_name_some _ hrmlt _ hi
  generalize hmd : MASK_MODRM_MOD (peek cb 0) = md at hmdlt
  by_cases h4 : MASK_MODRM_RM (peek cb 0) = 4
  · interval_cases md
    · by_cases h5 : (decode_sib (peek cb 1)).base = 5
      · exact ⟨_, _, decode_rm_mod0_sib_disp cb size ni hmd h4 h5 hni⟩
      · exact ⟨_, _, decode_rm_mod0_sib_base cb size nb ni hmd h4 h5 hnb hni⟩
    · exact ⟨_, _, decode_rm_mod1_sib cb size nb8 ni hmd h4 hnb8 hni⟩
    · exact ⟨_, _, decode_rm_mod2_sib cb size nb ni hmd h4 hnb hni⟩
    · exact ⟨_, _, decode_rm_mod3 cb size nr hmd hnr⟩
  · interval_cases md
    · by_cases h5 : MASK_MODRM_RM (peek cb 0) = 5
      · exact ⟨_, _, decode_rm_mod0_disp cb size hmd h5⟩
      · exact ⟨_, _, decode_rm_mod0_reg cb size nr hmd h4 h5 hnr⟩
    · exact ⟨_, _, decode_rm_mod1_reg cb size nr hmd h4 hnr⟩
    · exact ⟨_, _, decode_rm_mod2_reg cb size nr hmd h4 hnr⟩
    · exact ⟨_, _, decode_rm_mod3 cb size nr hmd hnr⟩

/-- Outside the disp-only forms of `mod == 0`, and for `size` 0 or 1, the value
`decode_rm` returns is the length of ModRM, SIB and displacement. -/
theorem decode_rm_ret_eq_length (cb : Mem) (size : Int) (hsz : size = 0 ∨ size = 1)
    (hd : ¬ (MASK_MODRM_MOD (peek cb 0) = 0 ∧
      (MASK_MODRM_RM (peek cb 0) = 5 ∨
        (MASK_MODRM_RM (peek cb 0) = 4 ∧ (decode_sib (peek cb 1)).base = 5)))) :
    ∃ out, decode_rm cb size = some (out, modrm_length_spec cb) := by
  have hmdlt := MASK_MODRM_MOD_lt (peek cb 0)
  have hrmlt := MASK_MODRM_RM_lt (peek cb 0)
  have hi : 1 + size = 0 ∨ 1 + size = 1 ∨ 1 + size = 2 := by omega
  have hbase : MASK_SIB_BASE (peek cb 1) = (decode_sib (peek cb 1)).base := rfl
  obtain ⟨nb8, hnb8⟩ := reg_name_some _ (decode_sib_base_lt (peek cb 1)) 0 (Or.inl rfl)
  obtain ⟨nb, hnb⟩ := reg_name_some _ (decode_sib_base_lt (peek cb 1)) _ hi
  obtain ⟨ni, hni⟩ := reg_name_some _ (decode_sib_index_lt (peek cb 1)) _ hi
  obtain ⟨nr, hnr⟩ := reg_name_some _ hrmlt _ hi
  generalize hmd : MASK_MODRM_MOD (peek cb 0) = md at hmdlt hd
  by_cases h4 : MASK_MODRM_RM (peek cb 0) = 4
  · interval_cases md
    · have h5 : (decode_sib (peek cb 1)).base ≠ 5 := fun h => hd ⟨rfl, Or.inr ⟨h4, h⟩⟩
      have hl : modrm_length_spec cb = 2 := by
        simp [modrm_length_spec, hmd, h4, hbase, h5]
      rw [hl]
      exact ⟨_, decode_rm_mod0_sib_base cb size nb ni hmd h4 h5 hnb hni⟩
    · have hl : modrm_length_spec cb = 3 := by
        simp [modrm_length_spec, hmd, h4]
      rw [hl]
      exact ⟨_, decode_rm_mod1_sib cb size nb8 ni hmd h4 hnb8 hni⟩
    · have hl : modrm_length_spec cb = 6 := by
        simp [modrm_length_spec, hmd, h4]
      rw [hl]
      exact ⟨_, decode_rm_mod2_sib cb size nb ni hmd h4 hnb hni⟩
    · have hl : modrm_length_spec cb = 1 := by
        simp [modrm_length_spec, hmd, h4]
      rw [hl]
      exact ⟨_, decode_rm_mod3 cb size nr hmd hnr⟩
  · interval_cases md
    · have h5 : MASK_MODRM_RM (peek cb 0) ≠ 5 := fun h => hd ⟨rfl, Or.inl h⟩
      have hl : modrm_length_spec cb = 1 := by
        simp [modrm_length_spec, hmd, h4, h5]
      rw [hl]
      exact ⟨_, decode_rm_mod0_reg cb size nr hmd h4 h5 hnr⟩
    · have hl : modrm_length_spec cb = 2 := by
        simp [modrm_length_spec, hmd, h4]
      rw [hl]
      exact ⟨_, decode_rm_mod1_reg cb size nr hmd h4 hnr⟩
    · have hl : modrm_length_spec cb = 5 := by
        simp [modrm_length_spec, hmd, h4]
      rw [hl]
      exact ⟨_, decode_rm_mod2_reg cb size nr hmd h4 hnr⟩
    · have hl : modrm_length_spec cb = 1 := by
        simp [modrm_length_spec, hmd, h4]
      rw [hl]
      exact ⟨_, decode_rm_mod3 cb size nr hmd hnr⟩

/-! ## Supporting facts on `print_hex` and `is_seg_override` over all bytes -/

set_option maxRecDepth 100000 in
/-- The sign printed by `print_hex` is `-` exactly when bit 6 of the byte is set, and
the digits are those of the magnitude exactly for the bytes below 0x40 and from 0xC0
up. -/
theorem print_hex_all_bytes :
    ∀ v < 256,
      ((v &&& 0x40 ≠ 0 ↔ (print_hex v).toList.head? = some '-') ∧
       (v &&& 0x40 = 0 ↔ (print_hex v).toList.head? = some '+')) ∧
      ((v < 0x40 ∨ 0xC0 ≤ v) ↔
        print_hex v = (if v &&& 0x40 ≠ 0
          then "-0x" ++ String.mk (Nat.toDigits 16 (256 - v))
          else "+0x" ++ String.mk (Nat.toDigits 16 v))) := by
  decide

set_option maxRecDepth 100000 in
/-- Among all bytes, `is_seg_override` gives a non-zero result exactly for
36, 3E, 26, 64 and 65. -/
theorem is_seg_override_ne_zero_iff :
    ∀ b < 256, (is_seg_override (to_char b) ≠ 0 ↔
      b = 0x36 ∨ b = 0x3E ∨ b = 0x26 ∨ b = 0x64 ∨ b = 0x65) := by
  decide

/-! ## Claims on `decode_rm` and `print_hex` -/

/-- C1: for `size` 0 or 1 `decode_rm` returns
`1 + (1 if rm == 4 and mod != 3) + d`, with `d = 1` for `mod == 1`, `d = 4` for
`mod == 2` and `d = 0` for `mod == 3` and for `mod == 0` outside the disp-only case;
with `rm == 4` and `mod` in 0..2 the base, index and scale printed are the fields of
the byte at offset 1 and the displacement byte printed is the one at offset 2;
without SIB the displacement byte printed is the one at offset 1. -/
theorem decode_rm_bytes_consumed (cb : Mem) (size : Int) (md rm : Nat) (s : sib_fields)
    (hsz : size = 0 ∨ size = 1)
    (hmd : MASK_MODRM_MOD (peek cb 0) = md) (hrm : MASK_MODRM_RM (peek cb 0) = rm)
    (hsib : decode_sib (peek cb 1) = s) :
    ∃ out ret nb8 nb ni,
      decode_rm cb size = some (out, ret) ∧
      reg_name s.base 0 = some nb8 ∧
      reg_name s.base (1 + size) = some nb ∧
      reg_name s.index (1 + size) = some ni ∧
      (¬ (md = 0 ∧ (rm = 5 ∨ (rm = 4 ∧ s.base = 5))) →
        ret = 1 + (if rm = 4 ∧ md ≠ 3 then 1 else 0)
                + (if md = 1 then 1 else if md = 2 then 4 else 0)) ∧
      (rm = 4 → md = 0 → s.base = 5 →
        out = "[" ++ fmt_0x 4 (peek cb 2) ++ "+" ++ ni ++ "*" ++ fmt_d s.scale ++ "]") ∧
      (rm = 4 → md = 0 → s.base ≠ 5 →
        out = "[" ++ nb ++ "+" ++ ni ++ "*" ++ fmt_d s.scale ++ "]") ∧
      (rm = 4 → md = 1 →
        out = "[" ++ fmt_0x 1 (peek cb 2) ++ "+" ++ nb8 ++ "+" ++ ni ++ "*"
                ++ fmt_d s.scale ++ "]") ∧
      (rm = 4 → md = 2 → out = "[disp+" ++ nb ++ "+" ++ ni ++ "*d]") ∧
      (rm = 5 → md = 0 → out = fmt_0x 4 (peek cb 1)) ∧
      (rm ≠ 4 → md = 1 →
        ∃ nr, reg_name rm (1 + size) = some nr ∧
          out = "dword [" ++ nr ++ print_hex (peek cb 1) ++ "]") := by
  have hmdlt : md < 4 := hmd ▸ MASK_MODRM_MOD_lt (peek cb 0)
  have hrmlt : rm < 8 := hrm ▸ MASK_MODRM_RM_lt (peek cb 0)
  have hblt : s.base < 8 := hsib ▸ decode_sib_base_lt (peek cb 1)
  have hilt : s.index < 8 := hsib ▸ decode_sib_index_lt (peek cb 1)
  have hi : 1 + size = 0 ∨ 1 + size = 1 ∨ 1 + size = 2 := by omega
  obtain ⟨nb8, hnb8⟩ := reg_name_some s.base hblt 0 (Or.inl rfl)
  obtain ⟨nb, hnb⟩ := reg_name_some s.base hblt _ hi
  obtain ⟨ni, hni⟩ := reg_name_some s.index hilt _ hi
  obtain ⟨nr, hnr⟩ := reg_name_some rm hrmlt _ hi
  subst hsib hrm
  by_cases h4 : MASK_MODRM_RM (peek cb 0) = 4
  · interval_cases md
    · by_cases h5 : (decode_sib (peek cb 1)).base = 5
      · exact ⟨_, _, nb8, nb, ni, decode_rm_mod0_sib_disp cb size ni hmd h4 h5 hni,
          hnb8, hnb, hni, by simp [h4, h5]⟩
      · exact ⟨_, _, nb8, nb, ni, decode_rm_mod0_sib_base cb size nb ni hmd h4 h5 hnb hni,
          hnb8, hnb, hni, by simp [h4, h5]⟩
    · exact ⟨_, _, nb8, nb, ni, decode_rm_mod1_sib cb size nb8 ni hmd h4 hnb8 hni,
        hnb8, hnb, hni, by simp [h4]⟩
    · exact ⟨_, _, nb8, nb, ni, decode_rm_mod2_sib cb size nb ni hmd h4 hnb hni,
        hnb8, hnb, hni, by simp [h4]⟩
    · exact ⟨_, _, nb8, nb, ni, decode_rm_mod3 cb size nr hmd hnr,
        hnb8, hnb, hni, by simp [h4]⟩
  · interval_cases md
    · by_cases h5 : MASK_MODRM_RM (peek cb 0) = 5
      · exact ⟨_, _, nb8, nb, ni, decode_rm_mod0_disp cb size hmd h5,
          hnb8, hnb, hni, by simp [h5]⟩
      · exact ⟨_, _, nb8, nb, ni, decode_rm_mod0_reg cb size nr hmd h4 h5 hnr,
          hnb8, hnb, hni, by simp [h4, h5]⟩
    · exact ⟨_, _, nb8, nb, ni, decode_rm_mod1_reg cb size nr hmd h4 hnr,
        hnb8, hnb, hni, by simp [h4, hnr]⟩
    · exact ⟨_, _, nb8, nb, ni, decode_rm_mod2_reg cb size nr hmd h4 hnr,
        hnb8, hnb, hni, by simp [h4]⟩
    · exact ⟨_, _, nb8, nb, ni, decode_rm_mod3 cb size nr hmd hnr,
        hnb8, hnb, hni, by simp [h4]⟩

/-- Witness of C1 at the bytes 44 25 10 (`mod = 1`, `rm = 4`, SIB 25, displacement 10),
size 1: three bytes are counted, the SIB fields come from offset 1 and the
displacement printed from offset 2. -/
theorem decode_rm_bytes_consumed_witness :
    ((1 : Int) = 0 ∨ (1 : Int) = 1) ∧
    MASK_MODRM_MOD (peek (buf [0x44, 0x25, 0x10]) 0) = 1 ∧
    MASK_MODRM_RM (peek (buf [0x44, 0x25, 0x10]) 0) = 4 ∧
    decode_sib (peek (buf [0x44, 0x25, 0x10]) 1) = ⟨4, 5, 1⟩ ∧
    decode_rm (buf [0x44, 0x25, 0x10]) 1 = some ("[10+ch+esp*1]", 3) := by
  obtain ⟨out, ret, nb8, nb, ni, h, h8, -, hni, hret, -, -, hout, -⟩ :=
    decode_rm_bytes_consumed (buf [0x44, 0x25, 0x10]) 1 1 4 ⟨4, 5, 1⟩
      (Or.inr rfl) (by decide) (by decide) (by decide)
  refine ⟨Or.inr rfl, by decide, by decide, by decide, ?_⟩
  rw [h]
  have e1 : ret = 3 := by simpa using hret (by decide)
  have e2 := hout rfl rfl
  have e3 : nb8 = "ch" := by
    have : reg_name 5 0 = some "ch" := by decide
    rw [this] at h8
    exact (Option.some.inj h8).symm
  have e4 : ni = "esp" := by
    have : reg_name 4 (1 + 1) = some "esp" := by decide
    rw [this] at hni
    exact (Option.some.inj hni).symm
  subst e1 e3 e4
  rw [e2]
  decide

/-- C2: at the disp-only forms `decode_rm` does not count the four displacement
bytes.  ModRM 05 (`mod = 0`, `rm = 5`) followed by the displacement 78 56 34 12
returns 1, where the claim gives 5; ModRM 04 with SIB 25 (base field 5) followed by
the same displacement returns 2, where the claim gives 6. -/
theorem decode_rm_disp_only_returns :
    MASK_MODRM_MOD (peek (buf [0x05, 0x78, 0x56, 0x34, 0x12]) 0) = 0 ∧
    MASK_MODRM_RM (peek (buf [0x05, 0x78, 0x56, 0x34, 0x12]) 0) = 5 ∧
    decode_rm (buf [0x05, 0x78, 0x56, 0x34, 0x12]) 1 = some ("0078", 1) ∧
    MASK_MODRM_MOD (peek (buf [0x04, 0x25, 0x78, 0x56, 0x34, 0x12]) 0) = 0 ∧
    MASK_MODRM_RM (peek (buf [0x04, 0x25, 0x78, 0x56, 0x34, 0x12]) 0) = 4 ∧
    (decode_sib (peek (buf [0x04, 0x25, 0x78, 0x56, 0x34, 0x12]) 1)).base = 5 ∧
    decode_rm (buf [0x04, 0x25, 0x78, 0x56, 0x34, 0x12]) 1 = some ("[0078+esp*1]", 2) := by
  decide

/-- C3: with `mod == 3`, whatever follows the ModRM byte and for `size` 0 or 1,
`decode_rm` returns 1 and prints exactly `registers[rm].names[1+size]`, a text
without `[` or `]`. -/
theorem decode_rm_register_direct (cb : Mem) (size : Int) (hs : size = 0 ∨ size = 1)
    (hmod : MASK_MODRM_MOD (peek cb 0) = 3) :
    ∃ n, reg_name (MASK_MODRM_RM (peek cb 0)) (1 + size) = some n ∧
      decode_rm cb size = some (n, 1) ∧ '[' ∉ n.toList ∧ ']' ∉ n.toList := by
  have hrm := MASK_MODRM_RM_lt (peek cb 0)
  have hi : 1 + size = 0 ∨ 1 + size = 1 ∨ 1 + size = 2 := by omega
  obtain ⟨n, hn⟩ := reg_name_some _ hrm _ hi
  refine ⟨n, hn, ?_, reg_name_no_bracket _ hrm _ hi n hn⟩
  exact decode_rm_mod3 cb size n hmod hn

/-- C3 at the bytes C0 01 (`mod = 3`, `rm = 0`), size 1. -/
theorem decode_rm_register_direct_witness :
    ((1 : Int) = 0 ∨ (1 : Int) = 1) ∧
    MASK_MODRM_MOD (peek (buf [0xC0, 0x01]) 0) = 3 ∧
    ∃ n, reg_name (MASK_MODRM_RM (peek (buf [0xC0, 0x01]) 0)) (1 + 1) = some n ∧
      decode_rm (buf [0xC0, 0x01]) 1 = some (n, 1) ∧ '[' ∉ n.toList ∧ ']' ∉ n.toList :=
  ⟨Or.inr rfl, by decide,
    decode_rm_register_direct (buf [0xC0, 0x01]) 1 (Or.inr rfl) (by decide)⟩

/-- C4: `print_hex` stores the magnitude in a `signed char` and prints it with `%x`,
so a magnitude above 127 comes out sign-extended to 32 bits.  For `v = 0x40` (bit 6
set, `256 - v = 0xc0`) the text is `-0xffffffc0`, where the claim gives `-0xc0`; for
`v = 0x80` (bit 6 clear) it is `+0xffffff80`, where the claim gives `+0x80`. -/
theorem print_hex_sign_extends :
    print_hex 0x40 = "-0xffffffc0" ∧ print_hex 0x80 = "+0xffffff80" ∧
    print_hex 0x40 ≠ "-0x" ++ String.mk (Nat.toDigits 16 (256 - 0x40)) ∧
    print_hex 0x80 ≠ "+0x" ++ String.mk (Nat.toDigits 16 0x80) := by
  decide

/-- C6: with `immediate == 0` and `size` 0 or 1, `decode_operands` prints the
`decode_rm` text, `, `, the name of register `reg` and a newline when `dir == 0`,
and the name of register `reg`, `, `, the `decode_rm` text and a newline when
`dir != 0`. -/
theorem decode_operands_no_immediate (cb : Mem) (dir size : Int)
    (hsz : size = 0 ∨ size = 1) :
    ∃ t o nr, decode_rm cb size = some (t, o) ∧
      reg_name (MASK_MODRM_REG (peek cb 0)) (1 + size) = some nr ∧
      (dir = 0 → decode_operands cb dir size 0 = some (t ++ ", " ++ nr ++ "\n")) ∧
      (dir ≠ 0 → decode_operands cb dir size 0 = some (nr ++ ", " ++ t ++ "\n")) := by
  obtain ⟨t, o, h⟩ := decode_rm_some cb size hsz
  obtain ⟨nr, hnr⟩ := reg_name_some _ (MASK_MODRM_REG_lt (peek cb 0)) (1 + size) (by omega)
  refine ⟨t, o, nr, h, hnr, ?_, ?_⟩
  · intro hd
    simp [decode_operands, hd, h, hnr]
  · intro hd
    simp [decode_operands, hd, h, hnr]

/-- C6 at the bytes 45 04 (`mod = 1`, `reg = 0`, `rm = 5`), size 1, in both
directions. -/
theorem decode_operands_no_immediate_witness :
    ((1 : Int) = 0 ∨ (1 : Int) = 1) ∧
    decode_operands (buf [0x45, 0x04]) 0 1 0 = some "dword [ebp+0x4], eax\n" ∧
    decode_operands (buf [0x45, 0x04]) 2 1 0 = some "eax, dword [ebp+0x4]\n" := by
  obtain ⟨t, o, nr, h, hnr, h0, -⟩ :=
    decode_operands_no_immediate (buf [0x45, 0x04]) 0 1 (Or.inr rfl)
  have e1 : decode_rm (buf [0x45, 0x04]) 1 = some ("dword [ebp+0x4]", 2) := by decide
  have e2 : reg_name (MASK_MODRM_REG (peek (buf [0x45, 0x04]) 0)) (1 + 1) = some "eax" := by
    decide
  rw [e1] at h
  rw [e2] at hnr
  obtain ⟨rfl, rfl⟩ := Prod.mk.inj (Option.some.inj h)
  obtain rfl := Option.some.inj hnr
  exact ⟨Or.inr rfl, h0 rfl, by decide⟩

/-- C7: the byte `decode_operands` prints as the immediate is not always the first
byte after ModRM, SIB and displacement.  With `dir == 0` it is the byte at offset 1
whatever the ModRM byte calls for: on 45 04 01 (`mod = 1`, `rm = 5`, displacement 04,
immediate 01) the text is `eax, +0x4`, where the claim gives `eax, +0x1`; the
`dir != 0` path on the same bytes does print `+0x1`.  With `dir != 0` and the
disp-only ModRM 05 followed by the displacement 10 00 00 00 and the immediate 01, the
byte printed is the one at offset 1 (`+0x10`), where the claim gives `+0x1`. -/
theorem decode_operands_immediate_wrong_byte :
    modrm_length_spec (buf [0x45, 0x04, 0x01]) = 2 ∧
    decode_operands (buf [0x45, 0x04, 0x01]) 0 1 1 = some "eax, +0x4\n" ∧
    decode_operands (buf [0x45, 0x04, 0x01]) 0 1 1 ≠
      (reg_name (MASK_MODRM_REG (peek (buf [0x45, 0x04, 0x01]) 0)) (1 + 1)).map
        (fun nr => nr ++ ", "
          ++ print_hex (peek (buf [0x45, 0x04, 0x01])
              (modrm_length_spec (buf [0x45, 0x04, 0x01]))) ++ "\n") ∧
    decode_operands (buf [0x45, 0x04, 0x01]) 1 1 1 = some "dword [ebp+0x4], +0x1\n" ∧
    modrm_length_spec (buf [0x05, 0x10, 0x00, 0x00, 0x00, 0x01]) = 5 ∧
    decode_operands (buf [0x05, 0x10, 0x00, 0x00, 0x00, 0x01]) 1 1 1
      = some "0010, +0x10\n" ∧
    decode_operands (buf [0x05, 0x10, 0x00, 0x00, 0x00, 0x01]) 1 1 1 ≠
      (decode_rm (buf [0x05, 0x10, 0x00, 0x00, 0x00, 0x01]) 1).map
        (fun r => r.1 ++ ", "
          ++ print_hex (peek (buf [0x05, 0x10, 0x00, 0x00, 0x00, 0x01])
              (modrm_length_spec (buf [0x05, 0x10, 0x00, 0x00, 0x00, 0x01]))) ++ "\n") := by
  decide

/-- What `decode_operands` prints with `immediate != 0` and `size` 0 or 1: the
non-immediate operand, `, `, the `print_hex` text of one byte and a newline.  With
`dir != 0` the operand is the `decode_rm` text and the byte is the one at the offset
`decode_rm` returns, which outside the disp-only forms of `mod == 0` is the first
byte after ModRM, SIB and displacement.  With `dir == 0` the operand is the name of
register `reg` and the byte is the one at offset 1.  For 83 C0 01, with `dir` and
`immediate` taken from bits 0x02 and 0x80 of the first byte, the call on C0 01 with
size 1 prints `eax, +0x1` and a newline. -/
theorem decode_operands_immediate (cb : Mem) (dir size immediate : Int)
    (hsz : size = 0 ∨ size = 1) (himm : immediate ≠ 0) :
    (dir ≠ 0 → ∃ t o, decode_rm cb size = some (t, o) ∧
      decode_operands cb dir size immediate
        = some (t ++ ", " ++ print_hex (peek cb o) ++ "\n") ∧
      (¬ (MASK_MODRM_MOD (peek cb 0) = 0 ∧
          (MASK_MODRM_RM (peek cb 0) = 5 ∨
            (MASK_MODRM_RM (peek cb 0) = 4 ∧ (decode_sib (peek cb 1)).base = 5))) →
        o = modrm_length_spec cb)) ∧
    (dir = 0 → ∃ nr, reg_name (MASK_MODRM_REG (peek cb 0)) (1 + size) = some nr ∧
      decode_operands cb dir size immediate
        = some (nr ++ ", " ++ print_hex (peek cb 1) ++ "\n")) ∧
    decode_operands (advance (buf [0x83, 0xC0, 0x01]) 1)
      (if 0x83 &&& 0x02 ≠ 0 then 1 else 0) 1 (if 0x83 &&& 0x80 ≠ 0 then 1 else 0)
      = some "eax, +0x1\n" := by
  refine ⟨?_, ?_, by decide⟩
  · intro hd
    obtain ⟨t, o, h⟩ := decode_rm_some cb size hsz
    refine ⟨t, o, h, ?_, ?_⟩
    · simp [decode_operands, himm, hd, h]
    · intro hdisp
      obtain ⟨t2, h2⟩ := decode_rm_ret_eq_length cb size hsz hdisp
      rw [h] at h2
      exact (Prod.mk.inj (Option.some.inj h2)).2
  · intro hd
    obtain ⟨nr, hnr⟩ :=
      reg_name_some _ (MASK_MODRM_REG_lt (peek cb 0)) (1 + size) (by omega)
    exact ⟨nr, hnr, by simp [decode_operands, himm, hd, hnr]⟩

/-- The immediate forms at 45 04 01 with size 1: `dir = 1` prints the byte at
offset 2 after the memory operand, `dir = 0` prints the byte at offset 1 after the
register. -/
theorem decode_operands_immediate_at_45_04_01 :
    ((1 : Int) = 0 ∨ (1 : Int) = 1) ∧ (1 : Int) ≠ 0 ∧
    decode_operands (buf [0x45, 0x04, 0x01]) 1 1 1 = some "dword [ebp+0x4], +0x1\n" ∧
    decode_operands (buf [0x45, 0x04, 0x01]) 0 1 1 = some "eax, +0x4\n" := by
  have hA := (decode_operands_immediate (buf [0x45, 0x04, 0x01]) 1 1 1
    (Or.inr rfl) (by decide)).1 (by decide)
  have hB := (decode_operands_immediate (buf [0x45, 0x04, 0x01]) 0 1 1
    (Or.inr rfl) (by decide)).2.1 rfl
  obtain ⟨t, o, h, hout, -⟩ := hA
  obtain ⟨nr, hnr, hout2⟩ := hB
  have e1 : decode_rm (buf [0x45, 0x04, 0x01]) 1 = some ("dword [ebp+0x4]", 2) := by decide
  have e2 : reg_name (MASK_MODRM_REG (peek (buf [0x45, 0x04, 0x01]) 0)) (1 + 1)
      = some "eax" := by decide
  rw [e1] at h
  rw [e2] at hnr
  obtain ⟨rfl, rfl⟩ := Prod.mk.inj (Option.some.inj h)
  obtain rfl := Option.some.inj hnr
  refine ⟨Or.inr rfl, by decide, ?_, ?_⟩
  · rw [hout]; decide
  · rw [hout2]; decide

/-! ## Claims on `decode_instruction` and the prefix tests -/

/-- C8: on 83 C0 01 `decode_instruction` derives `dir = 0`, `size = 0` and
`imm = 0x80` but calls `decode_operands` with the constants 0, 1, 0: whatever the
opcode table, the text is the mnemonic followed by ` eax, eax` and a newline, and the
immediate byte 01 is not printed.  With `dir` and `immediate` set (as the call kept
in `main` passes them) the operand text would be `eax, +0x1`; with the three flags
as derived it would be `ax, +0x1`. -/
theorem decode_instruction_ignores_flags (opcodes : List opcode) (NON : Nat) :
    decode_instruction_locals (buf [0x83, 0xC0, 0x01])
      = { idx := 1, cmd := 0x83, dir := 0, size := 0, imm := 0x80 } ∧
    decode_instruction opcodes NON (buf [0x83, 0xC0, 0x01]) 3
      = some ((find_opcode opcodes NON 0x83).name ++ " " ++ "eax, eax\n") ∧
    decode_operands (advance (buf [0x83, 0xC0, 0x01]) 1) 1 1 1 = some "eax, +0x1\n" ∧
    decode_operands (advance (buf [0x83, 0xC0, 0x01]) 1) 0 0 0x80 = some "ax, +0x1\n" := by
  refine ⟨by decide, ?_, by decide, by decide⟩
  have h1 : decode_instruction_locals (buf [0x83, 0xC0, 0x01])
      = { idx := 1, cmd := 0x83, dir := 0, size := 0, imm := 0x80 } := by decide
  have h2 : decode_operands (advance (buf [0x83, 0xC0, 0x01]) 1) 0 1 0
      = some "eax, eax\n" := by decide
  simp only [decode_instruction, h1, h2, Option.map_some']

/-- C9: the prefix tests of `decode_instruction` skip no repeat/lock, address-size or
operand-size prefix.  On F0 83 C0 01, on 67 83 C0 01 and on 66 83 C0 01 the index
stays 0, the operand-size flag stays 0 and the byte looked up as the opcode is the
prefix byte itself, not 83. -/
theorem decode_instruction_scan_keeps_prefix_byte :
    decode_instruction_scan (buf [0xF0, 0x83, 0xC0, 0x01]) = { idx := 0, f32 := 0, seg := 0 } ∧
    (decode_instruction_locals (buf [0xF0, 0x83, 0xC0, 0x01])).cmd = 0xF0 ∧
    decode_instruction_scan (buf [0x67, 0x83, 0xC0, 0x01]) = { idx := 0, f32 := 0, seg := 0 } ∧
    (decode_instruction_locals (buf [0x67, 0x83, 0xC0, 0x01])).cmd = 0x67 ∧
    decode_instruction_scan (buf [0x66, 0x83, 0xC0, 0x01]) = { idx := 0, f32 := 0, seg := 0 } ∧
    (decode_instruction_locals (buf [0x66, 0x83, 0xC0, 0x01])).cmd = 0x66 := by
  decide

/-- C10: for the byte 2E `is_seg_override` returns `CS`, which is 0, the value it
also returns for a byte that is no override; on 2E 83 C0 01 `decode_instruction`
does not advance and looks up 2E as the opcode.  The five other override bytes give
their non-zero enumerators. -/
theorem is_seg_override_cs_is_zero :
    is_seg_override (to_char 0x2E) = CS ∧ CS = 0 ∧
    is_seg_override (to_char 0x90) = 0 ∧
    decode_instruction_scan (buf [0x2E, 0x83, 0xC0, 0x01]) = { idx := 0, f32 := 0, seg := 0 } ∧
    (decode_instruction_locals (buf [0x2E, 0x83, 0xC0, 0x01])).cmd = 0x2E ∧
    is_seg_override (to_char 0x36) = SS ∧ is_seg_override (to_char 0x3E) = DS ∧
    is_seg_override (to_char 0x26) = ES ∧ is_seg_override (to_char 0x64) = FS ∧
    is_seg_override (to_char 0x65) = GS ∧
    decode_instruction_scan (buf [0x36, 0x83, 0xC0, 0x01]) = { idx := 1, f32 := 0, seg := SS } := by
  decide

/-! ## Claims on the opcode lookup -/

/-- The four prefix tests stop at index 0 unless the first byte gives a non-zero
`is_seg_override`, in which case they stop at index 1. -/
theorem decode_instruction_scan_idx (cb : Mem) :
    (decode_instruction_scan cb).idx
      = if is_seg_override (to_char (peek cb 0)) ≠ 0 then 1 else 0 := by
  simp [decode_instruction_scan, is_prefix, is_address_size, is_operand_size]

/-- The escape test of `decode_instruction`, counted from the index `p` where its
prefix tests stop (index 0, or index 1 when the first byte is a segment override the
tests accept), with `c` the byte at `p`: if `c == 0x0F` the byte after `c` is the one
looked up in the opcode table and operand decoding starts at `p + 2`; otherwise `c`
itself is looked up and operand decoding starts at `p + 1`. -/
theorem decode_instruction_escape (opcodes : List opcode) (NON : Nat) (cb : Mem)
    (maxsize : Int) (p : Nat) (hp : (decode_instruction_scan cb).idx = p) :
    (p = if is_seg_override (to_char (peek cb 0)) ≠ 0 then 1 else 0) ∧
    (peek cb p = 0x0F →
      (decode_instruction_locals cb).cmd = peek cb (p + 1) ∧
      (decode_instruction_locals cb).idx = p + 2 ∧
      decode_instruction opcodes NON cb maxsize
        = (decode_operands (advance cb (p + 2)) 0 1 0).map
            (fun t => (find_opcode opcodes NON (peek cb (p + 1))).name ++ " " ++ t)) ∧
    (peek cb p ≠ 0x0F →
      (decode_instruction_locals cb).cmd = peek cb p ∧
      (decode_instruction_locals cb).idx = p + 1 ∧
      decode_instruction opcodes NON cb maxsize
        = (decode_operands (advance cb (p + 1)) 0 1 0).map
            (fun t => (find_opcode opcodes NON (peek cb p)).name ++ " " ++ t)) := by
  refine ⟨hp ▸ decode_instruction_scan_idx cb, ?_, ?_⟩
  · intro hc
    have h1 : (decode_instruction_locals cb).cmd = peek cb (p + 1) := by
      simp [decode_instruction_locals, hp, hc]
    have h2 : (decode_instruction_locals cb).idx = p + 2 := by
      simp [decode_instruction_locals, hp, hc]
    refine ⟨h1, h2, ?_⟩
    simp only [decode_instruction, h1, h2]
  · intro hc
    have h1 : (decode_instruction_locals cb).cmd = peek cb p := by
      simp [decode_instruction_locals, hp, hc]
    have h2 : (decode_instruction_locals cb).idx = p + 1 := by
      simp [decode_instruction_locals, hp, hc]
    refine ⟨h1, h2, ?_⟩
    simp only [decode_instruction, h1, h2]

/-- The escape test at 0F 01 C0 (escape at index 0: 01 is looked up, operands start
at index 2) and at 36 83 C0 (segment override skipped, 83 at index 1 is looked up,
operands start at index 2). -/
theorem decode_instruction_escape_examples :
    (decode_instruction_scan (buf [0x0F, 0x01, 0xC0])).idx = 0 ∧
    peek (buf [0x0F, 0x01, 0xC0]) 0 = 0x0F ∧
    (decode_instruction_locals (buf [0x0F, 0x01, 0xC0])).cmd = 0x01 ∧
    (decode_instruction_locals (buf [0x0F, 0x01, 0xC0])).idx = 2 ∧
    (decode_instruction_scan (buf [0x36, 0x83, 0xC0])).idx = 1 ∧
    peek (buf [0x36, 0x83, 0xC0]) 1 ≠ 0x0F ∧
    (decode_instruction_locals (buf [0x36, 0x83, 0xC0])).cmd = 0x83 ∧
    (decode_instruction_locals (buf [0x36, 0x83, 0xC0])).idx = 2 := by
  have hA := (decode_instruction_escape [] 0 (buf [0x0F, 0x01, 0xC0]) 3 0 (by decide)).2.1
    (by decide)
  have hB := (decode_instruction_escape [] 0 (buf [0x36, 0x83, 0xC0]) 3 1 (by decide)).2.2
    (by decide)
  exact ⟨by decide, by decide, hA.1, hA.2.1, by decide, by decide, hB.1, hB.2.1⟩

/-- C11: behind a prefix byte the escape is not followed.  On 66 0F 01 C0 the first
non-prefix byte is 0F at index 1, so 01 should be looked up and operand decoding
should start at index 3; `decode_instruction` looks up 66 and starts operand decoding
at index 1, printing `[edi], ecx` for the byte 0F taken as ModRM.  The same happens
on F0 0F 01 C0 and on 2E 0F 01 C0.  Without a prefix byte, on 0F 01 C0, the byte 01
is looked up and operand decoding starts at index 2. -/
theorem decode_instruction_escape_behind_prefix_byte (opcodes : List opcode)
    (NON : Nat) :
    (decode_instruction_locals (buf [0x66, 0x0F, 0x01, 0xC0])).cmd = 0x66 ∧
    (decode_instruction_locals (buf [0x66, 0x0F, 0x01, 0xC0])).idx = 1 ∧
    decode_instruction opcodes NON (buf [0x66, 0x0F, 0x01, 0xC0]) 4
      = some ((find_opcode opcodes NON 0x66).name ++ " " ++ "[edi], ecx\n") ∧
    (decode_instruction_locals (buf [0xF0, 0x0F, 0x01, 0xC0])).cmd = 0xF0 ∧
    (decode_instruction_locals (buf [0xF0, 0x0F, 0x01, 0xC0])).idx = 1 ∧
    (decode_instruction_locals (buf [0x2E, 0x0F, 0x01, 0xC0])).cmd = 0x2E ∧
    (decode_instruction_locals (buf [0x2E, 0x0F, 0x01, 0xC0])).idx = 1 ∧
    (decode_instruction_locals (buf [0x0F, 0x01, 0xC0])).cmd = 0x01 ∧
    (decode_instruction_locals (buf [0x0F, 0x01, 0xC0])).idx = 2 := by
  have h1 : decode_instruction_locals (buf [0x66, 0x0F, 0x01, 0xC0])
      = { idx := 1, cmd := 0x66, dir := 2, size := 1, imm := 0 } := by decide
  have h2 : decode_operands (advance (buf [0x66, 0x0F, 0x01, 0xC0]) 1) 0 1 0
      = some "[edi], ecx\n" := by decide
  refine ⟨by decide, by decide, ?_, by decide, by decide, by decide, by decide,
    by decide, by decide⟩
  simp only [decode_instruction, h1, h2, Option.map_some']

/-- The loop of `find_opcode` finds nothing exactly when no entry has the value. -/
theorem find_opcode_loop_none (opcodes : List opcode) (v : Nat)
    (h : ∀ o ∈ opcodes, o.v ≠ v) : find_opcode_loop opcodes v = none := by
  induction opcodes with
  | nil => rfl
  | cons o rest ih =>
    have ho : o.v ≠ v := h o (List.mem_cons_self _ _)
    have hx : ¬ (o.v ^^^ v = 0) := fun e => ho (Nat.xor_eq_zero.mp e)
    simp only [find_opcode_loop, hx, if_false]
    exact ih (fun x hx => h x (List.mem_cons_of_mem _ hx))

/-- The loop of `find_opcode` returns the first entry that has the value. -/
theorem find_opcode_loop_first (pre post : List opcode) (o : opcode) (v : Nat)
    (hpre : ∀ x ∈ pre, x.v ≠ v) (ho : o.v = v) :
    find_opcode_loop (pre ++ o :: post) v = some o := by
  induction pre with
  | nil => simp [find_opcode_loop, ho]
  | cons x rest ih =>
    have hxv : x.v ≠ v := hpre x (List.mem_cons_self _ _)
    have hx : ¬ (x.v ^^^ v = 0) := fun e => hxv (Nat.xor_eq_zero.mp e)
    simp only [List.cons_append, find_opcode_loop, hx, if_false]
    exact ih (fun y hy => hpre y (List.mem_cons_of_mem _ hy))

/-- Splitting a table at its first entry with value `v`. -/
theorem exists_first_entry (opcodes : List opcode) (v : Nat)
    (h : ∃ o ∈ opcodes, o.v = v) :
    ∃ pre o post, opcodes = pre ++ o :: post ∧ (∀ x ∈ pre, x.v ≠ v) ∧ o.v = v := by
  induction opcodes with
  | nil => obtain ⟨o, ho, -⟩ := h; cases ho
  | cons a rest ih =>
    by_cases ha : a.v = v
    · exact ⟨[], a, rest, rfl, by simp, ha⟩
    · obtain ⟨o, ho, hov⟩ := h
      have hrest : ∃ o ∈ rest, o.v = v := by
        rcases List.mem_cons.mp ho with rfl | hm
        · exact absurd hov ha
        · exact ⟨o, hm, hov⟩
      obtain ⟨pre, o2, post, e, hpre, ho2⟩ := ih hrest
      refine ⟨a :: pre, o2, post, by simp [e], ?_, ho2⟩
      intro x hx
      rcases List.mem_cons.mp hx with rfl | hm
      · exact ha
      · exact hpre x hm

/-- C12: for every table and every `v`, `find_opcode` returns a descriptor (it has no
error result): the sentinel with value 0xFF and mnemonic `non` when no entry has
value `v`, and otherwise the first entry of the table whose value is `v`. -/
theorem find_opcode_sentinel_or_first (opcodes : List opcode) (NON : Nat) (v : Nat) :
    ((∀ o ∈ opcodes, o.v ≠ v) →
      find_opcode opcodes NON v = ⟨0xFF, 0, 0, NON, NON, NON, "non"⟩ ∧
      (find_opcode opcodes NON v).v = 0xFF ∧ (find_opcode opcodes NON v).name = "non") ∧
    ((∃ o ∈ opcodes, o.v = v) →
      ∃ pre o post, opcodes = pre ++ o :: post ∧ (∀ x ∈ pre, x.v ≠ v) ∧ o.v = v ∧
        find_opcode opcodes NON v = o) := by
  constructor
  · intro h
    have e : find_opcode opcodes NON v = ⟨0xFF, 0, 0, NON, NON, NON, "non"⟩ := by
      simp only [find_opcode, find_opcode_loop_none opcodes v h]
    exact ⟨e, by rw [e], by rw [e]⟩
  · intro h
    obtain ⟨pre, o, post, e, hpre, ho⟩ := exists_first_entry opcodes v h
    refine ⟨pre, o, post, e, hpre, ho, ?_⟩
    simp only [find_opcode, e, find_opcode_loop_first pre post o v hpre ho]

/-- C12 on a table with two entries of value 0x83: a miss (0x90) gives the sentinel,
a hit (0x83) gives an entry with no entry of that value before it, here the one
named `first`. -/
theorem find_opcode_sentinel_or_first_witness :
    find_opcode [⟨0x01, 0, 0, 0, 0, 0, "add"⟩, ⟨0x83, 1, 0, 0, 0, 0, "first"⟩,
        ⟨0x83, 2, 0, 0, 0, 0, "second"⟩] 7 0x90 = ⟨0xFF, 0, 0, 7, 7, 7, "non"⟩ ∧
    (∃ pre o post,
      [(⟨0x01, 0, 0, 0, 0, 0, "add"⟩ : opcode), ⟨0x83, 1, 0, 0, 0, 0, "first"⟩,
        ⟨0x83, 2, 0, 0, 0, 0, "second"⟩] = pre ++ o :: post ∧
      (∀ x ∈ pre, x.v ≠ 0x83) ∧ o.v = 0x83 ∧
      find_opcode [⟨0x01, 0, 0, 0, 0, 0, "add"⟩, ⟨0x83, 1, 0, 0, 0, 0, "first"⟩,
        ⟨0x83, 2, 0, 0, 0, 0, "second"⟩] 7 0x83 = o) ∧
    (find_opcode [⟨0x01, 0, 0, 0, 0, 0, "add"⟩, ⟨0x83, 1, 0, 0, 0, 0, "first"⟩,
        ⟨0x83, 2, 0, 0, 0, 0, "second"⟩] 7 0x83).name = "first" :=
  ⟨((find_opcode_sentinel_or_first
      [⟨0x01, 0, 0, 0, 0, 0, "add"⟩, ⟨0x83, 1, 0, 0, 0, 0, "first"⟩,
        ⟨0x83, 2, 0, 0, 0, 0, "second"⟩] 7 0x90).1 (by decide)).1,
   (find_opcode_sentinel_or_first
      [⟨0x01, 0, 0, 0, 0, 0, "add"⟩, ⟨0x83, 1, 0, 0, 0, 0, "first"⟩,
        ⟨0x83, 2, 0, 0, 0, 0, "second"⟩] 7 0x83).2 (by decide),
   by decide⟩

/-! ## Claims on bounds, `decode_sib` and the register names -/

/-- C13: `decode_instruction` does not use `maxsize`.  On the one-byte buffer 0F
(zero after it) with `maxsize` 1 it loads the indices 1, 2 and 3, prints an
instruction text (`[eax], eax` after the mnemonic looked up for the byte 00) and
signals nothing.  On every buffer it loads the byte after the one where operand
decoding starts, an index of at least 2. -/
theorem decode_instruction_reads_past_maxsize (opcodes : List opcode) (NON : Nat) :
    decode_instruction_reads (buf [0x0F]) = [0, 0, 0, 0, 0, 1, 2, 2, 0, 2, 2, 2, 3] ∧
    decode_instruction opcodes NON (buf [0x0F]) 1
      = some ((find_opcode opcodes NON 0x00).name ++ " " ++ "[eax], eax\n") ∧
    (∀ cb : Mem, (decode_instruction_locals cb).idx + 1 ∈ decode_instruction_reads cb ∧
      2 ≤ (decode_instruction_locals cb).idx + 1) := by
  refine ⟨by decide, ?_, ?_⟩
  · have h1 : decode_instruction_locals (buf [0x0F])
        = { idx := 2, cmd := 0x00, dir := 0, size := 0, imm := 0 } := by decide
    have h2 : decode_operands (advance (buf [0x0F]) 2) 0 1 0 = some "[eax], eax\n" := by
      decide
    simp only [decode_instruction, h1, h2, Option.map_some']
  · intro cb
    constructor
    · simp [decode_instruction_reads, decode_instruction_locals, decode_instruction_scan,
        decode_operands_reads, decode_rm_reads, is_prefix, is_address_size,
        is_operand_size]
    · simp [decode_instruction_locals]

set_option maxRecDepth 100000 in
/-- The fields of `decode_sib` over all bytes, without the logarithm. -/
theorem decode_sib_all_bytes :
    ∀ b < 256,
      (decode_sib b).scale = (2 : Int) ^ (b >>> 6) ∧
      (decode_sib b).index = (b >>> 3) % 8 ∧
      (decode_sib b).base = b % 8 ∧
      b = 64 * (b >>> 6) + 8 * (decode_sib b).index + (decode_sib b).base ∧
      b >>> 6 < 4 := by
  decide

/-- C14: for every byte `b`, `decode_sib` gives scale 1, 2, 4, 8 for the scale field
0, 1, 2, 3 (`scale = 2^(b >> 6)`), index = bits 5-3 and base = bits 2-0, so that
`b = 64 * log2(scale) + 8 * index + base` with index and base in 0..7. -/
theorem decode_sib_fields (b : Nat) (hb : b < 256) :
    (b >>> 6 = 0 → (decode_sib b).scale = 1) ∧
    (b >>> 6 = 1 → (decode_sib b).scale = 2) ∧
    (b >>> 6 = 2 → (decode_sib b).scale = 4) ∧
    (b >>> 6 = 3 → (decode_sib b).scale = 8) ∧
    b >>> 6 < 4 ∧
    (decode_sib b).scale = (2 : Int) ^ (b >>> 6) ∧
    (decode_sib b).index = (b >>> 3) % 8 ∧
    (decode_sib b).base = b % 8 ∧
    b = 64 * Nat.log 2 (decode_sib b).scale.toNat
          + 8 * (decode_sib b).index + (decode_sib b).base ∧
    (decode_sib b).index < 8 ∧ (decode_sib b).base < 8 := by
  obtain ⟨hs, hi, hba, hsum, hlt⟩ := decode_sib_all_bytes b hb
  have hlog : Nat.log 2 (decode_sib b).scale.toNat = b >>> 6 := by
    rw [hs]
    have : ((2 : Int) ^ (b >>> 6)).toNat = 2 ^ (b >>> 6) := by
      have h2 : ((2 : Int) ^ (b >>> 6)) = ((2 ^ (b >>> 6) : Nat) : Int) := by push_cast; rfl
      rw [h2, Int.toNat_natCast]
    rw [this]
    exact Nat.log_pow (by decide) _
  refine ⟨?_, ?_, ?_, ?_, hlt, hs, hi, hba, ?_, decode_sib_index_lt b, decode_sib_base_lt b⟩
  · intro h; rw [hs, h]; rfl
  · intro h; rw [hs, h]; rfl
  · intro h; rw [hs, h]; rfl
  · intro h; rw [hs, h]; rfl
  · rw [hlog]; exact hsum

/-- C14 at the byte 0xA5 (scale field 2, index 4, base 5). -/
theorem decode_sib_fields_witness :
    0xA5 < 256 ∧ decode_sib 0xA5 = { index := 4, base := 5, scale := 4 } ∧
    0xA5 = 64 * Nat.log 2 (decode_sib 0xA5).scale.toNat
            + 8 * (decode_sib 0xA5).index + (decode_sib 0xA5).base :=
  ⟨by decide, by decide, (decode_sib_fields 0xA5 (by decide)).2.2.2.2.2.2.2.2.1⟩

/-- C15: with `mod == 2` the text of `decode_rm` holds the placeholder, not the
displacement.  ModRM 80 (`rm = 0`) followed by 78 56 34 12 prints
`dword [eax+disp32]`, the same text as with the displacement 00 00 00 00; ModRM 84
with SIB 25 followed by 78 56 34 12 prints `[disp+ebp+esp*d]`.  Both texts contain
`disp`. -/
theorem decode_rm_disp32_placeholder :
    MASK_MODRM_MOD (peek (buf [0x80, 0x78, 0x56, 0x34, 0x12]) 0) = 2 ∧
    decode_rm (buf [0x80, 0x78, 0x56, 0x34, 0x12]) 1 = some ("dword [eax+disp32]", 5) ∧
    decode_rm (buf [0x80, 0x00, 0x00, 0x00, 0x00]) 1 = some ("dword [eax+disp32]", 5) ∧
    "disp32".toList <:+: "dword [eax+disp32]".toList ∧
    MASK_MODRM_MOD (peek (buf [0x84, 0x25, 0x78, 0x56, 0x34, 0x12]) 0) = 2 ∧
    MASK_MODRM_RM (peek (buf [0x84, 0x25, 0x78, 0x56, 0x34, 0x12]) 0) = 4 ∧
    decode_rm (buf [0x84, 0x25, 0x78, 0x56, 0x34, 0x12]) 1 = some ("[disp+ebp+esp*d]", 6) ∧
    decode_rm (buf [0x84, 0x25, 0x00, 0x00, 0x00, 0x00]) 1 = some ("[disp+ebp+esp*d]", 6) ∧
    "disp".toList <:+: "[disp+ebp+esp*d]".toList := by
  refine ⟨by decide, by decide, by decide, ?_, by decide, by decide, by decide, by decide, ?_⟩
  · exact ⟨"dword [eax+".toList, "]".toList, by decide⟩
  · exact ⟨"[".toList, "+ebp+esp*d]".toList, by decide⟩

/-- C16: on the `mod == 1` path with SIB, `decode_rm` names the base register from
`names[0]`, the 8-bit names.  ModRM 44 with SIB 0B (index 1, base 3) and displacement
10 prints `[10+bl+ecx*1]` for size 1 and `[10+bl+cx*1]` for size 0: the base is `bl`,
not `ebx` or `bx`, and is not at the width of the index. -/
theorem decode_rm_disp8_sib_base_is_name8 :
    MASK_MODRM_MOD (peek (buf [0x44, 0x0B, 0x10]) 0) = 1 ∧
    MASK_MODRM_RM (peek (buf [0x44, 0x0B, 0x10]) 0) = 4 ∧
    decode_sib (peek (buf [0x44, 0x0B, 0x10]) 1) = { index := 1, base := 3, scale := 1 } ∧
    decode_rm (buf [0x44, 0x0B, 0x10]) 1 = some ("[10+bl+ecx*1]", 3) ∧
    decode_rm (buf [0x44, 0x0B, 0x10]) 0 = some ("[10+bl+cx*1]", 3) ∧
    reg_name 3 0 = some "bl" ∧ canonical_names8.get? 3 = some "bl" ∧
    reg_name 3 (1 + 0) = some "bx" ∧ reg_name 3 (1 + 1) = some "ebx" := by
  decide

/-- C17: entry 6 of `registers` has the 8-bit name `sh`, where the canonical name is
`dh`.  The `val` members are 0..7 and the 16-bit and 32-bit names are the canonical
ones; the 8-bit names are canonical except at ordinal 6. -/
theorem registers_name8_of_6 :
    registers.get? 6 = some ⟨0x06, ["sh", "si", "esi"]⟩ ∧
    reg_name 6 0 = some "sh" ∧ canonical_names8.get? 6 = some "dh" ∧
    registers.map (fun r => r.val) = [0, 1, 2, 3, 4, 5, 6, 7] ∧
    registers.map (fun r => r.names.get? 0)
      = [some "al", some "cl", some "dl", some "bl", some "ah", some "ch", some "sh",
          some "bh"] ∧
    registers.map (fun r => r.names.get? 1) = canonical_names16.map some ∧
    registers.map (fun r => r.names.get? 2) = canonical_names32.map some := by
  decide

/-- Entries 1 and 2 of `names` are the canonical 16-bit and 32-bit names. -/
theorem reg_name_canonical (r : Nat) (hr : r < 8) :
    reg_name r 1 = canonical_names16.get? r ∧ reg_name r 2 = canonical_names32.get? r := by
  interval_cases r <;> exact ⟨rfl, rfl⟩

/-- C18 as stated fails.  With the size argument 0 the names printed are those of
`names[1]`, the 16-bit ones: on ModRM C8 (`mod = 3`, `reg = 1`, `rm = 0`) the text is
`ax, cx`, not `al, cl`.  With the size argument 2 the name read is `names[3]`,
outside the three names of an entry. -/
theorem decode_operands_size_class_counterexample :
    decode_operands (buf [0xC8]) 0 0 0 = some "ax, cx\n" ∧
    decode_rm (buf [0xC8]) 0 = some ("ax", 1) ∧
    decode_operands (buf [0xC8]) 0 0 0 ≠
      (reg_name (MASK_MODRM_RM (peek (buf [0xC8]) 0)) 0).bind (fun nrm =>
        (reg_name (MASK_MODRM_REG (peek (buf [0xC8]) 0)) 0).map (fun nreg =>
          nrm ++ ", " ++ nreg ++ "\n")) ∧
    reg_name (MASK_MODRM_RM (peek (buf [0xC8]) 0)) (1 + 2) = none ∧
    decode_rm (buf [0xC8]) 2 = none ∧
    decode_operands (buf [0xC8]) 0 2 0 = none := by
  decide

/-- C18, amended: for the size argument 0 or 1 the register names printed by
`decode_operands`, and by `decode_rm` for a register-direct operand, are
`registers[r].names[1 + size]`: the 16-bit name for size 0 and the 32-bit name for
size 1; the index `1 + size` is 1 or 2. -/
theorem decode_operands_register_names (cb : Mem) (dir size immediate : Int)
    (hsz : size = 0 ∨ size = 1) :
    (1 ≤ 1 + size ∧ 1 + size ≤ 2) ∧
    (∃ nreg, reg_name (MASK_MODRM_REG (peek cb 0)) (1 + size) = some nreg ∧
      (size = 0 → canonical_names16.get? (MASK_MODRM_REG (peek cb 0)) = some nreg) ∧
      (size = 1 → canonical_names32.get? (MASK_MODRM_REG (peek cb 0)) = some nreg) ∧
      (immediate ≠ 0 → dir = 0 →
        decode_operands cb dir size immediate
          = some (nreg ++ ", " ++ print_hex (peek cb 1) ++ "\n")) ∧
      (∃ t o, decode_rm cb size = some (t, o) ∧
        (immediate = 0 → dir = 0 →
          decode_operands cb dir size immediate = some (t ++ ", " ++ nreg ++ "\n")) ∧
        (immediate = 0 → dir ≠ 0 →
          decode_operands cb dir size immediate = some (nreg ++ ", " ++ t ++ "\n")))) ∧
    (MASK_MODRM_MOD (peek cb 0) = 3 →
      ∃ nrm, reg_name (MASK_MODRM_RM (peek cb 0)) (1 + size) = some nrm ∧
        (size = 0 → canonical_names16.get? (MASK_MODRM_RM (peek cb 0)) = some nrm) ∧
        (size = 1 → canonical_names32.get? (MASK_MODRM_RM (peek cb 0)) = some nrm) ∧
        decode_rm cb size = some (nrm, 1)) := by
  have hi : 1 + size = 0 ∨ 1 + size = 1 ∨ 1 + size = 2 := by omega
  have hreg := MASK_MODRM_REG_lt (peek cb 0)
  have hrm := MASK_MODRM_RM_lt (peek cb 0)
  obtain ⟨nreg, hnreg⟩ := reg_name_some _ hreg _ hi
  obtain ⟨nrm, hnrm⟩ := reg_name_some _ hrm _ hi
  obtain ⟨t, o, ht⟩ := decode_rm_some cb size hsz
  refine ⟨by omega, ⟨nreg, hnreg, ?_, ?_, ?_, t, o, ht, ?_, ?_⟩, ?_⟩
  · intro h0
    subst h0
    rw [← (reg_name_canonical _ hreg).1]
    exact hnreg
  · intro h1
    subst h1
    rw [← (reg_name_canonical _ hreg).2]
    exact hnreg
  · intro himm hd
    simp [decode_operands, himm, hd, hnreg]
  · intro himm hd
    simp [decode_operands, himm, hd, hnreg, ht]
  · intro himm hd
    simp [decode_operands, himm, hd, hnreg, ht]
  · intro hmod
    refine ⟨nrm, hnrm, ?_, ?_, decode_rm_mod3 cb size nrm hmod hnrm⟩
    · intro h0
      subst h0
      rw [← (reg_name_canonical _ hrm).1]
      exact hnrm
    · intro h1
      subst h1
      rw [← (reg_name_canonical _ hrm).2]
      exact hnrm

/-- C18 amended, at ModRM C8 (`mod = 3`, `reg = 1`, `rm = 0`) with size 0: the names
are the 16-bit ones, `ax` and `cx`. -/
theorem decode_operands_register_names_witness :
    ((0 : Int) = 0 ∨ (0 : Int) = 1) ∧
    MASK_MODRM_MOD (peek (buf [0xC8]) 0) = 3 ∧
    (∃ nrm, reg_name (MASK_MODRM_RM (peek (buf [0xC8]) 0)) (1 + 0) = some nrm ∧
      ((0 : Int) = 0 → canonical_names16.get? (MASK_MODRM_RM (peek (buf [0xC8]) 0))
        = some nrm) ∧
      ((0 : Int) = 1 → canonical_names32.get? (MASK_MODRM_RM (peek (buf [0xC8]) 0))
        = some nrm) ∧
      decode_rm (buf [0xC8]) 0 = some (nrm, 1)) ∧
    decode_operands (buf [0xC8]) 0 0 0 = some "ax, cx\n" :=
  ⟨Or.inl rfl, by decide,
    (decode_operands_register_names (buf [0xC8]) 0 0 0 (Or.inl rfl)).2.2 (by decide),
    by decide⟩

/-! ## Claims on `parse_bin` and `string_to_hex` -/

/-- A `while` whose condition is always true never yields a final state. -/
theorem while_loop_true {σ : Type} (body : σ → σ) (fuel : Nat) (s : σ) :
    while_loop (fun _ => true) body fuel s = none := by
  induction fuel generalizing s with
  | zero => rfl
  | succ n ih => simp only [while_loop, if_true]; exact ih (body s)

/-- Each pass through the body of `parse_bin` moves `idx` forward by at least 1. -/
theorem parse_bin_body_idx (bin : Mem) (st : parse_state) :
    st.idx + 1 ≤ (parse_bin_body bin st).idx := by
  simp only [parse_bin_body]
  split <;> split <;> split <;> split <;> split <;> omega

/-- C19: the `while(1)` of `parse_bin` has no exit: whatever the buffer and however
many passes are allowed, `parse_bin` yields no final state, and after `n` passes the
cursor is at `n` or beyond, past the end of any buffer.  On 83 C0 01 (three bytes)
the cursor is at 4 after four passes and the loop goes on. -/
theorem parse_bin_never_returns (bin : Mem) (fuel : Nat) :
    parse_bin bin fuel = none ∧
    (∀ n, n ≤ (parse_bin_after bin n).idx) ∧
    (parse_bin_after (buf [0x83, 0xC0, 0x01]) 4).idx = 4 := by
  refine ⟨while_loop_true _ _ _, ?_, by decide⟩
  intro n
  induction n with
  | zero => exact Nat.zero_le _
  | succ k ih =>
    have := parse_bin_body_idx bin (parse_bin_after bin k)
    simp only [parse_bin_after]
    omega

/-- On a character `'0'..'9'` or `'A'..'F'` the digit expression of `string_to_hex`
gives the value of the digit, below 16. -/
theorem hex_digit_of_valid (c : Nat)
    (hc : (48 ≤ c ∧ c ≤ 57) ∨ (65 ≤ c ∧ c ≤ 70)) :
    hex_digit (to_char c) = hexval c ∧ hexval c < 16 := by
  rcases hc with ⟨h1, h2⟩ | ⟨h1, h2⟩ <;> interval_cases c <;> decide

set_option maxRecDepth 100000 in
/-- Packing two values below 16 with `(h << 4) | l` gives `16 * h + l`, a byte. -/
theorem pack_nibbles : ∀ h < 16, ∀ l < 16,
    ((h <<< 4) % 4294967296 ||| l) % 256 = 16 * h + l := by
  decide

/-- The loop of `string_to_hex` on `2 * n` valid characters writes `n` bytes, byte `i`
packing the characters `2 * i` and `2 * i + 1`. -/
theorem string_to_hex_loop_spec (n : Nat) :
    ∀ str : List Nat, str.length = 2 * n →
      (∀ c ∈ str, (48 ≤ c ∧ c ≤ 57) ∨ (65 ≤ c ∧ c ≤ 70)) →
      (string_to_hex_loop str).length = n ∧
      ∀ i, i < n → (string_to_hex_loop str).get? i
        = some (16 * hexval (str.getD (2 * i) 0) + hexval (str.getD (2 * i + 1) 0)) := by
  induction n with
  | zero =>
    intro str hlen _
    have : str = [] := List.length_eq_zero.mp (by simpa using hlen)
    subst this
    exact ⟨rfl, fun i hi => absurd hi (Nat.not_lt_zero i)⟩
  | succ k ih =>
    intro str hlen hvalid
    match str, hlen, hvalid with
    | a :: b :: rest, hlen, hvalid =>
      have hrest : rest.length = 2 * k := by simp at hlen; omega
      have hva := hex_digit_of_valid a (hvalid a (by simp))
      have hvb := hex_digit_of_valid b (hvalid b (by simp))
      obtain ⟨ihlen, ihget⟩ := ih rest hrest (fun c hc => hvalid c (by simp [hc]))
      have hbyte : (((hex_digit (to_char a)) <<< 4) % 4294967296 ||| hex_digit (to_char b))
          % 256 = 16 * hexval a + hexval b := by
        rw [hva.1, hvb.1]
        exact pack_nibbles _ hva.2 _ hvb.2
      constructor
      · simp only [string_to_hex_loop, List.length_cons, ihlen]
      · intro i hi
        cases i with
        | zero =>
          simp only [string_to_hex_loop, hbyte]
          rfl
        | succ j =>
          have hj : j < k := by omega
          have e1 : 2 * (j + 1) = (2 * j) + 1 + 1 := by omega
          have e2 : 2 * (j + 1) + 1 = (2 * j + 1) + 1 + 1 := by omega
          simp only [string_to_hex_loop, List.get?_cons_succ, ihget j hj, e1, e2,
            List.getD_cons_succ]
    | [], hlen, _ => simp at hlen
    | [_], hlen, _ => simp at hlen; omega

/-- C20: on a string of even length made of `'0'..'9'` and `'A'..'F'`,
`string_to_hex` writes `len / 2` bytes, byte `i` being
`16 * hexval(s[2i]) + hexval(s[2i+1])`; on a string of odd length it writes nothing
and takes the error path. -/
theorem string_to_hex_correct (str : List Nat) :
    (str.length % 2 = 0 →
      (∀ c ∈ str, (48 ≤ c ∧ c ≤ 57) ∨ (65 ≤ c ∧ c ≤ 70)) →
      ∃ out, string_to_hex str = Except.ok out ∧ out.length = str.length / 2 ∧
        ∀ i, i < str.length / 2 → out.get? i
          = some (16 * hexval (str.getD (2 * i) 0) + hexval (str.getD (2 * i + 1) 0))) ∧
    (str.length % 2 = 1 → string_to_hex str = Except.error "ERROR INVALID STRING\n") := by
  constructor
  · intro heven hvalid
    have hlen : str.length = 2 * (str.length / 2) := by omega
    obtain ⟨h1, h2⟩ := string_to_hex_loop_spec (str.length / 2) str hlen hvalid
    exact ⟨string_to_hex_loop str, by simp [string_to_hex, heven], h1, h2⟩
  · intro hodd
    simp [string_to_hex, hodd]

/-- C20 on the string `83C001` (bytes 83 C0 01) and on the odd-length string
`83C`. -/
theorem string_to_hex_correct_witness :
    [56, 51, 67, 48, 48, 49].length % 2 = 0 ∧
    (∀ c ∈ [56, 51, 67, 48, 48, 49], (48 ≤ c ∧ c ≤ 57) ∨ (65 ≤ c ∧ c ≤ 70)) ∧
    (∃ out, string_to_hex [56, 51, 67, 48, 48, 49] = Except.ok out ∧
      out.length = [56, 51, 67, 48, 48, 49].length / 2 ∧
      ∀ i, i < [56, 51, 67, 48, 48, 49].length / 2 → out.get? i
        = some (16 * hexval ([56, 51, 67, 48, 48, 49].getD (2 * i) 0)
            + hexval ([56, 51, 67, 48, 48, 49].getD (2 * i + 1) 0))) ∧
    string_to_hex_loop [56, 51, 67, 48, 48, 49] = [0x83, 0xC0, 0x01] ∧
    [56, 51, 67].length % 2 = 1 ∧
    string_to_hex [56, 51, 67] = Except.error "ERROR INVALID STRING\n" :=
  ⟨by decide, by decide,
    (string_to_hex_correct [56, 51, 67, 48, 48, 49]).1 (by decide) (by decide),
    by decide, by decide,
    (string_to_hex_correct [56, 51, 67]).2 (by decide)⟩

end Revvit
